import Mathlib

/-!
Verification of the cart / checkout / catalog / auth behaviour of
`src/server.js` (a small Express e-commerce backend), via a shallow
embedding of its route handlers into Lean.

Conventions of the embedding:
* JS numbers that hold prices and quantities are modelled as `Int`
  (every arithmetic fact proved here is representation-independent:
  the code computes the same sums and products it is compared with).
* External stores are passed explicitly: the Catalog Store is a
  lookup function `String → Option Product` (or a `List Product` for
  the mutation path), the Order Store write is a boolean success flag,
  bcrypt is an abstract hash function `String → String`.
* A thrown JS exception that aborts the handler is an `Except.error`
  value; statements about "the cart afterwards" use the cart value the
  embedded handler returns.
-/

namespace Server

/-- A catalog product (mongoose `productSchema`: sku, name, price, category;
the `_id` document key is the `id` field; `updatedAt` is irrelevant to the
claims and omitted). -/
structure Product where
  id : String
  sku : String
  name : String
  price : Int
  category : String
  deriving Repr, DecidableEq

/-- One cart entry: `{ productId, quantity }` as pushed by `POST /cart`.
The code performs no validation of `quantity`, so it is an arbitrary
integer. -/
structure CartEntry where
  productId : String
  quantity : Int
  deriving Repr, DecidableEq

/-- An order line item: `{ productId, quantity, priceAtPurchase }`
(checkout loop, server.js line 126). -/
structure OrderItem where
  productId : String
  quantity : Int
  priceAtPurchase : Int
  deriving Repr, DecidableEq

/-- The order created by `prisma.order.create` (server.js lines 129-137). -/
structure Order where
  userId : String
  total : Int
  items : List OrderItem
  deriving Repr, DecidableEq

/-! ## Cart Registry (`POST /cart`, `DELETE /cart/:productId`) -/

/-- `POST /cart` body handler (server.js lines 100-107): find the first
entry with this `productId`; if present increment its quantity, else push
a new entry at the end. -/
def cartAdd : List CartEntry → String → Int → List CartEntry
  | [], productId, quantity => [⟨productId, quantity⟩]
  | e :: rest, productId, quantity =>
    if e.productId = productId then
      ⟨e.productId, e.quantity + quantity⟩ :: rest
    else
      e :: cartAdd rest productId quantity

/-- `DELETE /cart/:productId` (server.js line 110):
`carts[userId].filter(i => i.productId !== productId)`. -/
def cartRemove (cart : List CartEntry) (productId : String) : List CartEntry :=
  cart.filter (fun i => i.productId ≠ productId)

/-- A single cart operation issued against one user's cart. -/
inductive CartOp where
  | add (productId : String) (quantity : Int)
  | remove (productId : String)
  deriving Repr, DecidableEq

/-- Apply one cart operation. -/
def applyOp (cart : List CartEntry) : CartOp → List CartEntry
  | .add productId quantity => cartAdd cart productId quantity
  | .remove productId => cartRemove cart productId

/-- Apply a sequence of cart operations to the empty cart (a fresh user:
`carts[userId]` starts absent, read as `[]`). -/
def applyOps (ops : List CartOp) : List CartEntry :=
  ops.foldl applyOp []

/-- First entry of the cart carrying the given product id, if any
(the `find` of server.js line 103). -/
def findEntry (cart : List CartEntry) (productId : String) : Option CartEntry :=
  cart.find? (fun i => i.productId = productId)

/-- The quantities of the `add` operations for `pid` that occurred after
the last `remove` of `pid` (spec §8: additions "since its last removal").
Processed left to right; a removal of `pid` resets the record. -/
def addsSinceStep (pid : String) (acc : List Int) : CartOp → List Int
  | .add p q => if p = pid then acc ++ [q] else acc
  | .remove p => if p = pid then [] else acc

def addsSince (pid : String) (ops : List CartOp) : List Int :=
  ops.foldl (addsSinceStep pid) []

/-! ## Checkout Orchestrator (`POST /checkout`, server.js lines 115-141) -/

/-- Errors that abort the checkout handler: the explicit 400 response for
an empty cart (line 117), and a failed `prisma.order.create` (the awaited
promise rejects, so the handler aborts before line 139). -/
inductive CheckoutError where
  | emptyCart
  | persistence
  deriving Repr, DecidableEq

/-- The resolution loop of server.js lines 119-127, processing the cart in
order: a resolvable entry contributes `price * quantity` to the total and
an `OrderItem` carrying the price observed at lookup; an unresolvable one
is skipped (`if (!product) continue`). Returns `(total, items)`. -/
def checkoutLoop (findById : String → Option Product) :
    List CartEntry → Int × List OrderItem
  | [] => (0, [])
  | entry :: rest =>
    match findById entry.productId with
    | none => checkoutLoop findById rest
    | some product =>
      let r := checkoutLoop findById rest
      (product.price * entry.quantity + r.1,
        ⟨entry.productId, entry.quantity, product.price⟩ :: r.2)

/-- `POST /checkout` for one user. `findById` is the Catalog Store,
`writeOk` tells whether the single `prisma.order.create` write succeeds.
Returns the handler's outcome together with the user's cart afterwards:
the clear (line 139) runs only after the awaited write returned, so a
rejected write leaves the cart untouched. -/
def checkout (findById : String → Option Product) (writeOk : Bool)
    (userId : String) (cart : List CartEntry) :
    Except CheckoutError Order × List CartEntry :=
  if cart.length = 0 then
    (.error .emptyCart, cart)
  else
    let r := checkoutLoop findById cart
    if writeOk then
      (.ok ⟨userId, r.1, r.2⟩, [])
    else
      (.error .persistence, cart)

/-! ## Auth routes (`POST /auth/register`, `POST /auth/login`) -/

/-- A stored user record, as created by `prisma.user.create`
(server.js lines 45-47) and echoed back by `res.json(user)`. -/
structure User where
  id : String
  name : String
  email : String
  passwordHash : String
  role : String
  deriving Repr, DecidableEq

/-- The JSON body of `POST /auth/register`; `role` is `none` when the
field is absent from the body. -/
structure RegisterBody where
  name : String
  email : String
  password : String
  role : Option String
  deriving Repr, DecidableEq

/-- JS `s || d` for a string `s` (server.js line 46, `role || 'customer'`):
the empty string is the only falsy string, so it also selects the
default. An absent field is the `none` case of the caller. -/
def jsStringOr (s dflt : String) : String :=
  if s = "" then dflt else s

/-- `POST /auth/register` success path (server.js lines 41-48): hash the
password with bcrypt (abstracted as `hash`), store the user with
`role: role || 'customer'`, and return the full stored record as the
response body. `id` is assigned by the store. -/
def register (hash : String → String) (id : String) (body : RegisterBody) : User :=
  { id := id
    name := body.name
    email := body.email
    passwordHash := hash body.password
    role := match body.role with
      | some r => jsStringOr r "customer"
      | none => "customer" }

/-- The admin gate used by `POST /products`, `PUT /products/:id`,
`DELETE /products/:id` (server.js lines 75, 82, 88):
`req.user.role !== 'admin'` rejects with 403, so the caller passes the
gate exactly when the token role equals `"admin"`. -/
def adminGate (role : String) : Bool :=
  role = "admin"

/-- The signed token payload: `jwt.sign({ id, role }, ...)`
(server.js line 60). -/
structure Token where
  id : String
  role : String
  deriving Repr, DecidableEq

/-- The `POST /auth/login` success body: `res.json({ token, user })`
(server.js line 61). -/
structure LoginResponse where
  token : Token
  user : User
  deriving Repr, DecidableEq

/-- `POST /auth/login` (server.js lines 54-62). `users` is the user table
(`findUnique` on email is the first — unique — match), `checkPw` is
`bcrypt.compare`. `none` is the 401 response; the success response
carries the token and the full stored user record. -/
def login (users : List User) (checkPw : String → String → Bool)
    (email password : String) : Option LoginResponse :=
  match users.find? (fun u => u.email = email) with
  | none => none
  | some u =>
    if checkPw password u.passwordHash then
      some ⟨⟨u.id, u.role⟩, u⟩
    else
      none

/-! ## Admin product update (`PUT /products/:id`, server.js lines 81-85) -/

/-- The JSON body of a partial product update: only the supplied fields
are set. (`findByIdAndUpdate` with a plain object issues a `$set` of
exactly the supplied fields.) -/
structure ProductUpdate where
  sku : Option String
  name : Option String
  price : Option Int
  category : Option String
  deriving Repr, DecidableEq

/-- Merge the supplied fields onto an existing product. -/
def mergeProduct (p : Product) (u : ProductUpdate) : Product :=
  { id := p.id
    sku := u.sku.getD p.sku
    name := u.name.getD p.name
    price := u.price.getD p.price
    category := u.category.getD p.category }

/-- Point lookup of the Catalog Store by document id (`findById`). -/
def catalogFind (catalog : List Product) (id : String) : Option Product :=
  catalog.find? (fun p => p.id = id)

/-- Replace the first product with the given id by the merged record. -/
def catalogReplace : List Product → String → Product → List Product
  | [], _, _ => []
  | p :: rest, id, p2 =>
    if p.id = id then p2 :: rest else p :: catalogReplace rest id p2

/-- `PUT /products/:id` after the admin gate (server.js lines 83-84):
`findByIdAndUpdate(id, body, { new: true })` merges the supplied fields
and yields the updated document, or `null` when the id does not exist;
the handler then responds `res.json(product)` — a 200 in both cases,
there is no not-found branch. Returns the catalog afterwards and the
response body (`none` is the JSON `null`). -/
def updateProduct (catalog : List Product) (id : String) (u : ProductUpdate) :
    List Product × Option Product :=
  match catalogFind catalog id with
  | none => (catalog, none)
  | some p =>
    let p2 := mergeProduct p u
    (catalogReplace catalog id p2, some p2)

/-! ## Catalog list query (`GET /products`, server.js lines 65-72)

The search string is passed verbatim to `$regex` with the `i` option
(line 68) — it is *not* escaped, so it is interpreted as a regular
expression. We embed the fragment of that regex language the claims
exercise: a pattern is a sequence of single-character atoms, where `.`
is the any-character wildcard (matching everything but line
terminators) and every other character of the search strings considered
here is a literal; the `i` flag lowercases both sides. Search strings
using further metacharacters (`*`, `+`, `?`, brackets, ...) are outside
this fragment and excluded by hypothesis where it matters. -/

/-- One atom of the embedded regex fragment. -/
inductive RegexToken where
  | lit (c : Char)
  | wildcard
  deriving Repr, DecidableEq

/-- Read a search string as a pattern of the embedded fragment:
`.` is the wildcard, any other character a literal atom. -/
def parseSearchRegex (s : String) : List RegexToken :=
  s.data.map (fun c => if c = '.' then RegexToken.wildcard else RegexToken.lit c)

/-- JS line terminators, which `.` does not match. -/
def isLineTerminator (c : Char) : Bool :=
  c = '\n' ∨ c = '\r' ∨ c = ' ' ∨ c = ' '

/-- Whether one atom matches one character, under the `i` flag. -/
def tokenMatches : RegexToken → Char → Bool
  | .lit l, c => l.toLower = c.toLower
  | .wildcard, c => !isLineTerminator c

/-- Whether the pattern matches a prefix of the character list. -/
def matchesAt : List RegexToken → List Char → Bool
  | [], _ => true
  | _ :: _, [] => false
  | t :: ts, c :: cs => tokenMatches t c && matchesAt ts cs

/-- `RegExp.test` semantics of the fragment: the pattern matches at some
position of the string. -/
def regexTest (pat : List RegexToken) : List Char → Bool
  | [] => matchesAt pat []
  | c :: cs => matchesAt pat (c :: cs) || regexTest pat cs

/-- The filter built by server.js lines 66-69 applied to one product.
`if (search)` and `if (category)` skip a constraint whose query value is
absent (`none`) *or* the empty string (JS falsy). A present search
constrains `name` by `$regex` with option `i`; a present category is an
exact equality. -/
def productMatchesQuery (search category : Option String) (p : Product) : Bool :=
  (match search with
    | none => true
    | some s => if s = "" then true else regexTest (parseSearchRegex s) p.name.data) &&
  (match category with
    | none => true
    | some c => if c = "" then true else p.category = c)

/-- Descending-price comparison used by `.sort({ price: -1 })`
(server.js line 70). -/
def priceDesc (a b : Product) : Bool :=
  b.price ≤ a.price

/-- `GET /products` (server.js lines 65-72): filter the catalog by the
query, sort by price descending. -/
def listProducts (catalog : List Product) (search category : Option String) :
    List Product :=
  (catalog.filter (productMatchesQuery search category)).mergeSort priceDesc

/-! ## Spec-side definitions (for the refinement claims)

These follow the *spec's words*, to be compared with the code-side
definitions above. -/

/-- Spec: case-insensitive comparison of a needle against the start of a
string. -/
def startsWithCI : List Char → List Char → Bool
  | [], _ => true
  | _ :: _, [] => false
  | a :: as, b :: bs => (a.toLower = b.toLower) && startsWithCI as bs

/-- Spec: "case-insensitive substring match" — the needle occurs at some
position of the haystack. -/
def containsCI (needle : List Char) : List Char → Bool
  | [] => startsWithCI needle []
  | c :: cs => startsWithCI needle (c :: cs) || containsCI needle cs

/-- The characters carrying special meaning in (JS) regular expressions. -/
def regexMetachars : List Char :=
  ['.', '*', '+', '?', '^', '$', '(', ')', '[', ']', '\x7b', '\x7d', '|', '\\', '/']

/-- Spec (§4.3): a product is listed exactly when (if a search string is
supplied) its name contains the search string as a case-insensitive
substring, and (if a category is supplied) its category equals the given
category exactly. -/
def specMatches (search category : Option String) (p : Product) : Bool :=
  (match search with
    | none => true
    | some s => containsCI s.data p.name.data) &&
  (match category with
    | none => true
    | some c => p.category = c)

/-! ## Helper lemmas about the checkout loop -/

lemma checkoutLoop_total_eq (findById : String → Option Product)
    (cart : List CartEntry) :
    (checkoutLoop findById cart).1 =
      ((checkoutLoop findById cart).2.map
        (fun i => i.quantity * i.priceAtPurchase)).sum := by
  induction cart with
  | nil => simp [checkoutLoop]
  | cons entry rest ih =>
    cases h : findById entry.productId with
    | none => simpa [checkoutLoop, h] using ih
    | some product =>
      simp only [checkoutLoop, h, List.map_cons, List.sum_cons]
      rw [← ih]
      ring

lemma checkoutLoop_all_unresolved (findById : String → Option Product)
    (cart : List CartEntry) (h : ∀ e ∈ cart, findById e.productId = none) :
    checkoutLoop findById cart = (0, []) := by
  induction cart with
  | nil => rfl
  | cons e rest ih =>
    have he : findById e.productId = none := h e (by simp)
    rw [checkoutLoop, he]
    exact ih fun x hx => h x (by simp [hx])

end Server

namespace Server

/-- C1. Checkout is atomic with respect to the cart: with a nonempty cart,
if the Order Store write succeeds the handler returns the created order
and the cart becomes empty; if the write fails the handler surfaces the
persistence error and the cart is exactly as before (the clear on
server.js line 139 runs only after the awaited write of lines 129-137
returned). -/
theorem checkout_atomic_cart (findById : String → Option Product)
    (writeOk : Bool) (uid : String) (cart : List CartEntry)
    (hne : cart ≠ []) :
    (writeOk = true →
      ∃ order, checkout findById writeOk uid cart = (.ok order, [])) ∧
    (writeOk = false →
      checkout findById writeOk uid cart = (.error .persistence, cart)) := by
  have hlen : ¬ cart.length = 0 := by simpa using hne
  constructor
  · rintro rfl
    exact ⟨⟨uid, (checkoutLoop findById cart).1, (checkoutLoop findById cart).2⟩,
      by simp [checkout, hlen]⟩
  · rintro rfl
    simp [checkout, hlen]

theorem checkout_atomic_cart_witness :
    (true = true → ∃ order,
      checkout (fun _ => none) true "u" [⟨"p1", 1⟩] = (.ok order, [])) ∧
    (true = false →
      checkout (fun _ => none) true "u" [⟨"p1", 1⟩] =
        (.error .persistence, [⟨"p1", 1⟩])) :=
  checkout_atomic_cart (fun _ => none) true "u" [⟨"p1", 1⟩] (by simp)

/-- C2. For every successful checkout, the created order's total equals
the sum over its items of quantity times price-at-purchase (the price the
product had when it was looked up in the loop of lines 121-127). -/
theorem order_total_eq_sum_items (findById : String → Option Product)
    (writeOk : Bool) (uid : String) (cart : List CartEntry)
    (order : Order) (newCart : List CartEntry)
    (h : checkout findById writeOk uid cart = (.ok order, newCart)) :
    order.total =
      (order.items.map (fun i => i.quantity * i.priceAtPurchase)).sum := by
  unfold checkout at h
  split at h
  · simp at h
  · split at h
    · rw [Prod.mk.injEq] at h
      obtain ⟨h1, -⟩ := h
      rw [Except.ok.injEq] at h1
      subst h1
      exact checkoutLoop_total_eq findById cart
    · simp at h

theorem order_total_eq_sum_items_witness :
    (Order.mk "u" 20 [⟨"p1", 2, 10⟩]).total =
      ((Order.mk "u" 20 [⟨"p1", 2, 10⟩]).items.map
        (fun i => i.quantity * i.priceAtPurchase)).sum :=
  order_total_eq_sum_items
    (fun pid => if pid = "p1" then some ⟨"p1", "s", "n", 10, "c"⟩ else none)
    true "u" [⟨"p1", 2⟩, ⟨"missing", 3⟩] ⟨"u", 20, [⟨"p1", 2, 10⟩]⟩ [] (by rfl)

/-- C4. Checkout of an empty cart fails with the empty-cart error
(server.js line 117, the 400 response): no order value is produced, the
cart stays empty, and nothing reaches the Order Store (the handler
returns before the write). -/
theorem checkout_empty_cart (findById : String → Option Product)
    (writeOk : Bool) (uid : String) :
    checkout findById writeOk uid [] = (.error .emptyCart, []) := rfl

/-- C5. Unresolvable cart entries are skipped without error: an entry
whose product id the Catalog Store does not resolve contributes no order
item and nothing to the total (`if (!product) continue`, line 123); and
when no entry of a nonempty cart resolves, checkout still succeeds with
an order of total 0 and an empty item list. -/
theorem checkout_skips_unresolvable (findById : String → Option Product)
    (uid : String) :
    (∀ entry rest, findById entry.productId = none →
      checkoutLoop findById (entry :: rest) = checkoutLoop findById rest) ∧
    (∀ cart, cart ≠ [] → (∀ e ∈ cart, findById e.productId = none) →
      checkout findById true uid cart = (.ok ⟨uid, 0, []⟩, [])) := by
  constructor
  · intro entry rest h
    rw [checkoutLoop, h]
  · intro cart hne hall
    have hlen : ¬ cart.length = 0 := by simpa using hne
    simp [checkout, hlen, checkoutLoop_all_unresolved findById cart hall]

theorem checkout_skips_unresolvable_witness :
    checkout (fun _ => none) true "u" [⟨"p1", 2⟩] = (.ok ⟨"u", 0, []⟩, []) :=
  (checkout_skips_unresolvable (fun _ => none) "u").2 [⟨"p1", 2⟩]
    (by simp) (fun e _ => rfl)

/-! ## Helper lemmas about the Cart Registry -/

lemma findEntry_cartAdd_self (c : List CartEntry) (p : String) (q : Int) :
    findEntry (cartAdd c p q) p =
      some ⟨p, (findEntry c p).elim 0 (fun e => e.quantity) + q⟩ := by
  induction c with
  | nil => simp [cartAdd, findEntry]
  | cons e rest ih =>
    by_cases he : e.productId = p
    · simp [cartAdd, findEntry, he, List.find?]
    · simpa [cartAdd, findEntry, he, List.find?] using ih

lemma findEntry_cartAdd_other (c : List CartEntry) (p : String) (q : Int)
    (p2 : String) (h : p2 ≠ p) :
    findEntry (cartAdd c p q) p2 = findEntry c p2 := by
  have hps : ¬ p = p2 := fun hx => h hx.symm
  have hps2 : ¬ p2 = p := h
  induction c with
  | nil => simp [cartAdd, findEntry, List.find?, hps]
  | cons e rest ih =>
    by_cases he : e.productId = p
    · have hne : ¬ e.productId = p2 := by
        rw [he]; exact hps
      simp [cartAdd, findEntry, he, hne, List.find?, hps, hps2]
    · by_cases he2 : e.productId = p2
      · simp [cartAdd, findEntry, he, he2, List.find?, hps, hps2]
      · simpa [cartAdd, findEntry, he, he2, List.find?, hps, hps2] using ih

lemma findEntry_cartRemove_self (c : List CartEntry) (p : String) :
    findEntry (cartRemove c p) p = none := by
  rw [findEntry, List.find?_eq_none]
  intro e he
  have := (List.mem_filter.mp he).2
  simpa using this

lemma findEntry_cartRemove_other (c : List CartEntry) (p p2 : String)
    (h : p2 ≠ p) :
    findEntry (cartRemove c p) p2 = findEntry c p2 := by
  have hps : ¬ p = p2 := fun hx => h hx.symm
  have hps2 : ¬ p2 = p := h
  induction c with
  | nil => rfl
  | cons e rest ih =>
    by_cases he : e.productId = p
    · have hne : ¬ e.productId = p2 := by
        rw [he]; exact hps
      simpa [cartRemove, findEntry, he, hne, List.find?, List.filter,
        hps, hps2] using ih
    · by_cases he2 : e.productId = p2
      · simp [cartRemove, findEntry, he, he2, List.find?, List.filter,
          hps, hps2]
      · simpa [cartRemove, findEntry, he, he2, List.find?, List.filter,
          hps, hps2] using ih

lemma mem_map_productId_cartAdd (c : List CartEntry) (p : String) (q : Int)
    (x : String) (hx : x ∈ (cartAdd c p q).map (fun e => e.productId)) :
    x ∈ c.map (fun e => e.productId) ∨ x = p := by
  induction c with
  | nil =>
    simp [cartAdd] at hx
    exact .inr hx
  | cons e rest ih =>
    by_cases he : e.productId = p
    · rw [show cartAdd (e :: rest) p q = ⟨e.productId, e.quantity + q⟩ :: rest
          from by simp [cartAdd, he],
        List.map_cons] at hx
      rcases List.mem_cons.mp hx with rfl | hmem
      · exact .inl (by rw [List.map_cons]; exact List.mem_cons_self _ _)
      · exact .inl (by rw [List.map_cons]; exact List.mem_cons_of_mem _ hmem)
    · rw [show cartAdd (e :: rest) p q = e :: cartAdd rest p q
          from by simp [cartAdd, he],
        List.map_cons] at hx
      rcases List.mem_cons.mp hx with rfl | hmem
      · exact .inl (by rw [List.map_cons]; exact List.mem_cons_self _ _)
      · rcases ih hmem with h2 | h2
        · exact .inl (by rw [List.map_cons]; exact List.mem_cons_of_mem _ h2)
        · exact .inr h2

lemma nodup_map_productId_cartAdd (c : List CartEntry) (p : String) (q : Int)
    (h : (c.map (fun e => e.productId)).Nodup) :
    ((cartAdd c p q).map (fun e => e.productId)).Nodup := by
  induction c with
  | nil => simp [cartAdd]
  | cons e rest ih =>
    rw [List.map_cons, List.nodup_cons] at h
    obtain ⟨hnm, hrest⟩ := h
    by_cases he : e.productId = p
    · rw [show cartAdd (e :: rest) p q = ⟨e.productId, e.quantity + q⟩ :: rest
          from by simp [cartAdd, he],
        List.map_cons, List.nodup_cons]
      exact ⟨hnm, hrest⟩
    · rw [show cartAdd (e :: rest) p q = e :: cartAdd rest p q
          from by simp [cartAdd, he],
        List.map_cons, List.nodup_cons]
      refine ⟨?_, ih hrest⟩
      intro hmem
      rcases mem_map_productId_cartAdd rest p q _ hmem with h2 | h2
      · exact hnm h2
      · exact he h2

lemma nodup_map_productId_cartRemove (c : List CartEntry) (p : String)
    (h : (c.map (fun e => e.productId)).Nodup) :
    ((cartRemove c p).map (fun e => e.productId)).Nodup := by
  have hsub : List.Sublist (cartRemove c p) c := List.filter_sublist c
  exact h.sublist (hsub.map _)

lemma applyOps_append (ops : List CartOp) (op : CartOp) :
    applyOps (ops ++ [op]) = applyOp (applyOps ops) op := by
  simp [applyOps, List.foldl_append]

lemma addsSince_append (pid : String) (ops : List CartOp) (op : CartOp) :
    addsSince pid (ops ++ [op]) = addsSinceStep pid (addsSince pid ops) op := by
  simp [addsSince, List.foldl_append]

/-- The state invariant of a single user's cart, relative to the history
of operations applied to it: product ids are unique, and the entry found
for a product id is exactly determined by the additions recorded since
its last removal. -/
lemma cart_state_inv (ops : List CartOp) :
    ((applyOps ops).map (fun e => e.productId)).Nodup ∧
    ∀ pid, findEntry (applyOps ops) pid =
      (if addsSince pid ops = [] then none
       else some ⟨pid, (addsSince pid ops).sum⟩) := by
  induction ops using List.reverseRecOn with
  | nil =>
    refine ⟨by simp [applyOps], fun pid => ?_⟩
    simp [applyOps, addsSince, findEntry]
  | append_singleton ops op ih =>
    obtain ⟨ihN, ihF⟩ := ih
    rw [applyOps_append]
    constructor
    · cases op with
      | add p q => exact nodup_map_productId_cartAdd _ p q ihN
      | remove p => exact nodup_map_productId_cartRemove _ p ihN
    · intro pid
      rw [addsSince_append]
      cases op with
      | add p q =>
        by_cases hp : pid = p
        · subst hp
          show findEntry (cartAdd (applyOps ops) pid q) pid = _
          rw [findEntry_cartAdd_self, ihF pid]
          by_cases h0 : addsSince pid ops = []
          · simp [h0, addsSinceStep]
          · simp [h0, addsSinceStep]
        · show findEntry (cartAdd (applyOps ops) p q) pid = _
          rw [findEntry_cartAdd_other _ _ _ _ hp, ihF pid]
          have hp2 : ¬ p = pid := fun hx => hp hx.symm
          simp [addsSinceStep, hp2]
      | remove p =>
        by_cases hp : pid = p
        · subst hp
          show findEntry (cartRemove (applyOps ops) pid) pid = _
          rw [findEntry_cartRemove_self]
          simp [addsSinceStep]
        · show findEntry (cartRemove (applyOps ops) p) pid = _
          rw [findEntry_cartRemove_other _ _ _ hp, ihF pid]
          have hp2 : ¬ p = pid := fun hx => hp hx.symm
          simp [addsSinceStep, hp2]

lemma findEntry_of_mem_nodup (c : List CartEntry)
    (h : (c.map (fun e => e.productId)).Nodup)
    (e : CartEntry) (he : e ∈ c) :
    findEntry c e.productId = some e := by
  induction c with
  | nil => cases he
  | cons x rest ih =>
    rw [List.map_cons, List.nodup_cons] at h
    obtain ⟨hnm, hrest⟩ := h
    rcases List.mem_cons.mp he with rfl | hmem
    · simp [findEntry, List.find?]
    · have hne : ¬ x.productId = e.productId := by
        intro hx
        exact hnm (hx ▸ List.mem_map_of_mem (fun y => y.productId) hmem)
      simpa [findEntry, List.find?, hne] using ih hrest hmem

/-- Each entry of the cart reached by a history of operations carries the
sum of the additions for its product id since its last removal, and at
least one such addition exists. -/
lemma quantity_eq_addsSince_sum (ops : List CartOp) (e : CartEntry)
    (he : e ∈ applyOps ops) :
    e.quantity = (addsSince e.productId ops).sum ∧
      addsSince e.productId ops ≠ [] := by
  obtain ⟨hN, hF⟩ := cart_state_inv ops
  have hfind := findEntry_of_mem_nodup _ hN e he
  rw [hF e.productId] at hfind
  by_cases h0 : addsSince e.productId ops = []
  · rw [if_pos h0] at hfind
    cases hfind
  · rw [if_neg h0, Option.some.injEq] at hfind
    exact ⟨(congrArg CartEntry.quantity hfind).symm, h0⟩

lemma mem_addsSince_aux (pid : String) (ops : List CartOp) (acc : List Int)
    (x : Int) (hx : x ∈ ops.foldl (addsSinceStep pid) acc) :
    x ∈ acc ∨ CartOp.add pid x ∈ ops := by
  induction ops generalizing acc with
  | nil => exact .inl (by simpa [List.foldl] using hx)
  | cons op rest ih =>
    rw [List.foldl_cons] at hx
    rcases ih _ hx with h | h
    · cases op with
      | add p q =>
        by_cases hp : p = pid
        · rw [addsSinceStep, if_pos hp] at h
          rcases List.mem_append.mp h with h2 | h2
          · exact .inl h2
          · subst hp
            right
            simp at h2
            simp [h2]
        · rw [addsSinceStep, if_neg hp] at h
          exact .inl h
      | remove p =>
        by_cases hp : p = pid
        · rw [addsSinceStep, if_pos hp] at h
          cases h
        · rw [addsSinceStep, if_neg hp] at h
          exact .inl h
    · exact .inr (by simp [h])

lemma mem_addsSince (pid : String) (ops : List CartOp) (x : Int)
    (hx : x ∈ addsSince pid ops) : CartOp.add pid x ∈ ops := by
  rcases mem_addsSince_aux pid ops [] x hx with h | h
  · cases h
  · exact h

end Server

namespace Server

/-- C3. For every sequence of add/remove operations on a single user's
cart starting from empty, the resulting entry list has at most one entry
per product id, and each remaining entry's quantity is the sum of the
quantities of all adds for its product id since its last removal (add
increments the existing entry or appends, remove deletes the whole
entry). -/
theorem cart_sequence_invariant (ops : List CartOp) :
    ((applyOps ops).map (fun e => e.productId)).Nodup ∧
    ∀ e ∈ applyOps ops, e.quantity = (addsSince e.productId ops).sum :=
  ⟨(cart_state_inv ops).1,
    fun e he => (quantity_eq_addsSince_sum ops e he).1⟩

theorem cart_sequence_invariant_witness :
    (CartEntry.mk "p1" 5) ∈
      applyOps [.add "p1" 2, .add "p2" 7, .add "p1" 3, .remove "p2"] ∧
    (CartEntry.mk "p1" 5).quantity =
      (addsSince "p1" [.add "p1" 2, .add "p2" 7, .add "p1" 3, .remove "p2"]).sum :=
  ⟨by decide,
    (cart_sequence_invariant
      [.add "p1" 2, .add "p2" 7, .add "p1" 3, .remove "p2"]).2
      ⟨"p1", 5⟩ (by decide)⟩

/-- C7 counterexample: `POST /cart` performs no validation of the
caller-supplied quantity (server.js lines 100-107), so a single add of
quantity 0 yields a reachable cart holding an entry whose quantity is not
positive — the claimed invariant fails. -/
theorem cart_positive_quantity_counterexample :
    ∃ e ∈ applyOps [CartOp.add "p1" 0], ¬ (0 < e.quantity) := by decide

/-- C7 amended: if every add operation of the history supplies a positive
quantity, then every entry of the resulting cart has positive quantity.
(The code itself never checks the supplied quantity, so the invariant
holds only under this assumption on callers.) -/
theorem cart_positive_quantity_amended (ops : List CartOp)
    (hpos : ∀ pid q, CartOp.add pid q ∈ ops → 0 < q) :
    ∀ e ∈ applyOps ops, 0 < e.quantity := by
  intro e he
  obtain ⟨hsum, hne⟩ := quantity_eq_addsSince_sum ops e he
  rw [hsum]
  refine List.sum_pos _ ?_ hne
  intro x hx
  exact hpos e.productId x (mem_addsSince _ _ _ hx)

theorem cart_positive_quantity_amended_witness :
    0 < (CartEntry.mk "p1" 5).quantity :=
  cart_positive_quantity_amended [.add "p1" 2, .add "p1" 3]
    (by
      intro pid q h
      simp [CartOp.add.injEq] at h
      rcases h with ⟨-, rfl⟩ | ⟨-, rfl⟩ <;> omega)
    ⟨"p1", 5⟩ (by decide)

/-! ## Registration role, product update, auth response bodies -/

lemma catalogFind_id_eq (c : List Product) (id : String) (p : Product)
    (h : catalogFind c id = some p) : p.id = id := by
  rw [catalogFind] at h
  exact of_decide_eq_true (List.find?_eq_some.mp h).1

lemma catalogFind_catalogReplace_self (c : List Product) (id : String)
    (p2 : Product) (hex : ∃ p, catalogFind c id = some p) (hid : p2.id = id) :
    catalogFind (catalogReplace c id p2) id = some p2 := by
  induction c with
  | nil =>
    obtain ⟨p, hp⟩ := hex
    cases hp
  | cons x rest ih =>
    by_cases hx : x.id = id
    · simp [catalogReplace, catalogFind, hx, List.find?, hid]
    · rw [show catalogReplace (x :: rest) id p2 = x :: catalogReplace rest id p2
          from by simp [catalogReplace, hx]]
      obtain ⟨p, hp⟩ := hex
      rw [catalogFind, List.find?] at hp
      rw [show decide (x.id = id) = false from decide_eq_false hx] at hp
      rw [catalogFind, List.find?,
        show decide (x.id = id) = false from decide_eq_false hx]
      exact ih ⟨p, hp⟩

end Server

namespace Server

/-- C6 counterexample: registration does not use every supplied role
string verbatim — `role || 'customer'` (server.js line 46) also replaces
a *supplied* empty-string role by the default, because the empty string
is falsy; so defaulting is not limited to an omitted role field. -/
theorem register_role_counterexample :
    (RegisterBody.mk "n" "e" "pw" (some "")).role = some "" ∧
    (register (fun p => p) "u1" (RegisterBody.mk "n" "e" "pw" (some ""))).role
      = "customer" :=
  ⟨rfl, rfl⟩

/-- C6 amended: registration stores any supplied *non-empty* role string
verbatim, and defaults to customer when the role field is omitted or is
the empty string (the only falsy string). In particular an
unauthenticated caller can register with role admin, and the resulting
role passes the admin gate used by the product mutation routes. -/
theorem register_role_amended (hash : String → String) (id : String)
    (body : RegisterBody) :
    ((body.role = none ∨ body.role = some "") →
      (register hash id body).role = "customer") ∧
    (∀ r, body.role = some r → r ≠ "" →
      (register hash id body).role = r) ∧
    (body.role = some "admin" →
      adminGate (register hash id body).role = true) := by
  refine ⟨?_, ?_, ?_⟩
  · rintro (h | h) <;> simp [register, h, jsStringOr]
  · intro r h hr
    simp [register, h, jsStringOr, hr]
  · intro h
    simp [register, h, jsStringOr, adminGate]

theorem register_role_amended_witness :
    (register (fun p => p) "u1" (RegisterBody.mk "n" "e" "pw" (some "admin"))).role
      = "admin" ∧
    adminGate (register (fun p => p) "u1"
      (RegisterBody.mk "n" "e" "pw" (some "admin"))).role = true :=
  ⟨(register_role_amended (fun p => p) "u1" _).2.1 "admin" rfl (by decide),
   (register_role_amended (fun p => p) "u1" _).2.2 rfl⟩

/-- C8 counterexample: `PUT /products/:id` on a missing id does not fail
with a NotFoundError — `findByIdAndUpdate` yields `null` and the handler
answers `res.json(product)`, a plain 200 with body `null`; the embedded
handler has no error outcome at all and returns the untouched catalog
with a `none` body. -/
theorem update_missing_id_counterexample :
    updateProduct [] "p1" ⟨none, none, none, some "c"⟩ = ([], none) := rfl

/-- C8 amended: if the product id exists, the update merges the supplied
fields onto the existing product (supplied fields replace, omitted fields
persist), responds with the merged entity, and the store subsequently
resolves the id to the merged entity; if the id does not exist, the
handler leaves the catalog unchanged and responds with `null` (HTTP 200)
rather than a NotFoundError. -/
theorem update_product_amended (catalog : List Product) (id : String)
    (u : ProductUpdate) :
    (∀ p, catalogFind catalog id = some p →
      (updateProduct catalog id u).2 = some (mergeProduct p u) ∧
      catalogFind (updateProduct catalog id u).1 id = some (mergeProduct p u) ∧
      (u.price = none → (mergeProduct p u).price = p.price) ∧
      (∀ v, u.price = some v → (mergeProduct p u).price = v) ∧
      (u.name = none → (mergeProduct p u).name = p.name) ∧
      (∀ v, u.name = some v → (mergeProduct p u).name = v)) ∧
    (catalogFind catalog id = none →
      updateProduct catalog id u = (catalog, none)) := by
  constructor
  · intro p hp
    refine ⟨by simp [updateProduct, hp], ?_, ?_, ?_, ?_, ?_⟩
    · simp only [updateProduct, hp]
      apply catalogFind_catalogReplace_self
      · exact ⟨p, hp⟩
      · simpa [mergeProduct] using catalogFind_id_eq _ _ _ hp
    · intro h; simp [mergeProduct, h]
    · intro v h; simp [mergeProduct, h]
    · intro h; simp [mergeProduct, h]
    · intro v h; simp [mergeProduct, h]
  · intro hn
    simp [updateProduct, hn]

theorem update_product_amended_witness :
    (updateProduct [⟨"p1", "s", "n", 5, "c"⟩] "p1"
      ⟨none, none, some 7, none⟩).2 = some ⟨"p1", "s", "n", 7, "c"⟩ ∧
    catalogFind (updateProduct [⟨"p1", "s", "n", 5, "c"⟩] "p1"
      ⟨none, none, some 7, none⟩).1 "p1" = some ⟨"p1", "s", "n", 7, "c"⟩ :=
  ⟨((update_product_amended [⟨"p1", "s", "n", 5, "c"⟩] "p1"
      ⟨none, none, some 7, none⟩).1 ⟨"p1", "s", "n", 5, "c"⟩ rfl).1,
   ((update_product_amended [⟨"p1", "s", "n", 5, "c"⟩] "p1"
      ⟨none, none, some 7, none⟩).1 ⟨"p1", "s", "n", 5, "c"⟩ rfl).2.1⟩

/-- C10. Both auth responses leak the stored credential hash to the HTTP
client: registration answers with the full created record, whose
`passwordHash` field is the bcrypt hash of the supplied password
(`res.json(user)`, line 48), and every successful login response embeds
the full stored user record (`res.json({ token, user })`, line 61). -/
theorem auth_responses_expose_hash :
    (∀ hash id body,
      (register hash id body).passwordHash = hash body.password) ∧
    (∀ users checkPw email pw resp,
      login users checkPw email pw = some resp → resp.user ∈ users) := by
  constructor
  · intro hash id body
    rfl
  · intro users checkPw email pw resp h
    unfold login at h
    cases hf : users.find? (fun u => u.email = email) with
    | none =>
      rw [hf] at h
      cases h
    | some u =>
      rw [hf] at h
      have h2 : (if checkPw pw u.passwordHash then
          some (⟨⟨u.id, u.role⟩, u⟩ : LoginResponse) else none) = some resp := h
      by_cases hc : checkPw pw u.passwordHash = true
      · rw [if_pos hc, Option.some.injEq] at h2
        rw [← h2]
        exact List.mem_of_find?_eq_some hf
      · rw [if_neg hc] at h2
        cases h2

theorem auth_responses_expose_hash_witness :
    (LoginResponse.mk ⟨"u1", "customer"⟩ ⟨"u1", "n", "e", "h1", "customer"⟩).user
      ∈ [User.mk "u1" "n" "e" "h1" "customer"] :=
  auth_responses_expose_hash.2 [⟨"u1", "n", "e", "h1", "customer"⟩]
    (fun p h => p == h) "e" "h1"
    ⟨⟨"u1", "customer"⟩, ⟨"u1", "n", "e", "h1", "customer"⟩⟩ (by rfl)

/-! ## Helper lemmas for the catalog list query -/

lemma containsCI_nil (hay : List Char) : containsCI [] hay = true := by
  cases hay <;> simp [containsCI, startsWithCI]

lemma matchesAt_map_lit (s : List Char) (hay : List Char) :
    matchesAt (s.map RegexToken.lit) hay = startsWithCI s hay := by
  induction s generalizing hay with
  | nil => cases hay <;> rfl
  | cons a as ih =>
    cases hay with
    | nil => rfl
    | cons b bs => simp [matchesAt, startsWithCI, tokenMatches, ih]

lemma regexTest_map_lit (s hay : List Char) :
    regexTest (s.map RegexToken.lit) hay = containsCI s hay := by
  induction hay with
  | nil => simp [regexTest, containsCI, matchesAt_map_lit]
  | cons c cs ih => simp [regexTest, containsCI, matchesAt_map_lit, ih]

lemma parseSearchRegex_no_meta (s : String)
    (hs : ∀ ch ∈ s.data, ch ∉ regexMetachars) :
    parseSearchRegex s = s.data.map RegexToken.lit := by
  rw [parseSearchRegex]
  apply List.map_congr_left
  intro c hc
  have hdot : ¬ c = '.' := fun h => hs c hc (by rw [h]; simp [regexMetachars])
  simp [hdot]

lemma productMatchesQuery_eq_spec (search category : Option String)
    (hs : ∀ s, search = some s → ∀ ch ∈ s.data, ch ∉ regexMetachars)
    (hc : category ≠ some "") (p : Product) :
    productMatchesQuery search category p = specMatches search category p := by
  have heq : ∀ s : String, search = some s →
      (if s = "" then true else regexTest (parseSearchRegex s) p.name.data)
        = containsCI s.data p.name.data := by
    intro s hsome
    by_cases hse : s = ""
    · subst hse
      have hd : ("" : String).data = [] := rfl
      rw [if_pos rfl, hd, containsCI_nil]
    · rw [if_neg hse, parseSearchRegex_no_meta s (hs s hsome), regexTest_map_lit]
  cases search with
  | none =>
    cases category with
    | none => rfl
    | some c =>
      have hce : ¬ c = "" := fun h => hc (by rw [h])
      simp only [productMatchesQuery.eq_def, specMatches.eq_def, if_neg hce]
  | some s =>
    cases category with
    | none =>
      simp only [productMatchesQuery.eq_def, specMatches.eq_def, heq s rfl]
    | some c =>
      have hce : ¬ c = "" := fun h => hc (by rw [h])
      simp only [productMatchesQuery.eq_def, specMatches.eq_def, heq s rfl,
        if_neg hce]

lemma priceDesc_trans (a b c : Product)
    (h1 : priceDesc a b = true) (h2 : priceDesc b c = true) :
    priceDesc a c = true := by
  simp [priceDesc] at *
  omega

lemma priceDesc_total (a b : Product) :
    (priceDesc a b || priceDesc b a) = true := by
  simp [priceDesc]
  omega

end Server

namespace Server

/-- C9 counterexample. The search string reaches `$regex` unescaped
(server.js line 68), so it is interpreted as a regular expression, not a
substring: the search `a.c` makes the catalog list include a product
named `abc`, although `a.c` is not a (case-insensitive) substring of
`abc`. Moreover a supplied empty category string is falsy, so
`if (category)` drops the constraint: with category `""` a product of
category `x` is listed although its category differs from the supplied
one. -/
theorem list_products_counterexample :
    (listProducts [⟨"1", "s", "abc", 5, "x"⟩] (some "a.c") none
        = [⟨"1", "s", "abc", 5, "x"⟩] ∧
      containsCI "a.c".data "abc".data = false) ∧
    (listProducts [⟨"1", "s", "abc", 5, "x"⟩] none (some "")
        = [⟨"1", "s", "abc", 5, "x"⟩] ∧
      (Product.mk "1" "s" "abc" 5 "x").category ≠ "") := by
  refine ⟨⟨?_, by decide⟩, ?_, by decide⟩
  · rw [listProducts,
      show List.filter
          (productMatchesQuery (some "a.c") none) [⟨"1", "s", "abc", 5, "x"⟩]
        = [⟨"1", "s", "abc", 5, "x"⟩] from rfl]
    exact List.mergeSort_singleton _
  · rw [listProducts,
      show List.filter
          (productMatchesQuery none (some "")) [⟨"1", "s", "abc", 5, "x"⟩]
        = [⟨"1", "s", "abc", 5, "x"⟩] from rfl]
    exact List.mergeSort_singleton _

/-- C9 amended. For a search string free of regex metacharacters and a
category that is not the (falsy) empty string, the catalog list contains
a product exactly when it passes the spec filter — name contains the
search string case-insensitively (when supplied) and category matches
exactly (when supplied) — and the result is sorted by price, descending.
For other search strings the filter is the regular-expression
interpretation of the search string, which can differ from substring
semantics. -/
theorem list_products_amended (catalog : List Product)
    (search category : Option String)
    (hs : ∀ s, search = some s → ∀ ch ∈ s.data, ch ∉ regexMetachars)
    (hc : category ≠ some "") :
    (∀ p, p ∈ listProducts catalog search category ↔
      p ∈ catalog ∧ specMatches search category p = true) ∧
    (listProducts catalog search category).Pairwise
      (fun a b => b.price ≤ a.price) := by
  constructor
  · intro p
    rw [listProducts, List.mem_mergeSort, List.mem_filter,
      productMatchesQuery_eq_spec search category hs hc p]
  · rw [listProducts]
    refine List.Pairwise.imp ?_
      (List.sorted_mergeSort priceDesc_trans priceDesc_total
        (catalog.filter (productMatchesQuery search category)))
    intro a b h
    simpa [priceDesc] using h

theorem list_products_amended_witness :
    ((Product.mk "1" "s" "abc" 5 "x") ∈
        listProducts [⟨"1", "s", "abc", 5, "x"⟩, ⟨"2", "t", "abd", 9, "x"⟩]
          (some "ab") (some "x") ↔
      (Product.mk "1" "s" "abc" 5 "x") ∈
        [Product.mk "1" "s" "abc" 5 "x", Product.mk "2" "t" "abd" 9 "x"] ∧
      specMatches (some "ab") (some "x") ⟨"1", "s", "abc", 5, "x"⟩ = true) ∧
    (listProducts [⟨"1", "s", "abc", 5, "x"⟩, ⟨"2", "t", "abd", 9, "x"⟩]
        (some "ab") (some "x")).Pairwise (fun a b => b.price ≤ a.price) :=
  ⟨(list_products_amended
      [⟨"1", "s", "abc", 5, "x"⟩, ⟨"2", "t", "abd", 9, "x"⟩]
      (some "ab") (some "x")
      (fun s hsome => by cases hsome; decide) (by decide)).1 _,
   (list_products_amended
      [⟨"1", "s", "abc", 5, "x"⟩, ⟨"2", "t", "abd", 9, "x"⟩]
      (some "ab") (some "x")
      (fun s hsome => by cases hsome; decide) (by decide)).2⟩

end Server

